import Mathlib

/-!
Verification of `vite-plugin-wasm-pack` (`src/index.ts`).

The plugin's pure core is shallowly embedded here:
* filename derivation (`wasmFilename`, lines 42–44 of the source),
* the resolution map built at startup (`wasmMap`, lines 47–64),
* module-id interception (`resolveId`, lines 74–79),
* the loader-script rewrite performed by `prepareBuild` (lines 140–148),
  including a faithful executable model of the JavaScript regex
  `/input = new URL\('(.+)'.+;/g` and of Node's `path.posix.join`,
* the `buildStart` orchestration with its filesystem effects (lines 96–159),
* the dev-server middleware (`configureServer`, lines 161–181), and
* production asset emission (`buildEnd`, lines 183–192).

Strings are modelled as `List Char` wherever recursion is needed, with
`String` wrappers matching the TypeScript surface.
-/

/-- The single-quote character (code 39) used by the loader-script URL pattern. -/
def sqChar : Char := Char.ofNat 39

/-- The double-quote character (code 34). -/
def dqChar : Char := Char.ofNat 34

/-- One-character string holding a single quote. -/
def sqStr : String := String.singleton sqChar

/-- One-character string holding a double quote. -/
def dqStr : String := String.singleton dqChar

theorem mkStr_append (l1 l2 : List Char) :
    String.mk l1 ++ String.mk l2 = String.mk (l1 ++ l2) := rfl

/-- Model of Node `path.posix.basename` on characters: drop trailing
separators, then take the final separator-free run. -/
def basenameL (cs : List Char) : List Char :=
  ((cs.reverse.dropWhile (fun c => c == '/')).takeWhile (fun c => !(c == '/'))).reverse

/-- Model of Node `path.basename` (posix). -/
def basename (s : String) : String := String.mk (basenameL s.data)

/-- One step of a left-to-right scan tracking the last completed nonempty
`/`-separated segment and the segment currently being read. -/
def lastSegStep : List Char × List Char → Char → List Char × List Char
  | (last, cur), c =>
    if c = '/' then (if cur = [] then last else cur, [])
    else (last, cur ++ [c])

/-- At end of input the current segment, if nonempty, is the last one. -/
def finishSeg : List Char × List Char → List Char
  | (last, cur) => if cur = [] then last else cur

/-- Spec-side definition, from the spec's words: "take the last path segment
of the source identifier" — the last nonempty `/`-separated segment of the
character list, read left to right. -/
def specLastSegL (cs : List Char) : List Char :=
  finishSeg (cs.foldl lastSegStep ([], []))

/-- Spec-side "last path segment" on strings. -/
def lastPathSegment (s : String) : String := String.mk (specLastSegL s.data)

/-- Model of `.replace` with the global hyphen regex: every hyphen becomes
an underscore. -/
def replaceDash (s : String) : String :=
  String.mk (s.data.map (fun c => if c = '-' then '_' else c))

/-- `wasmFilename` from the source (lines 42–44): `path.basename(cratePath)`
with every hyphen replaced by an underscore, then `'_bg.wasm'` appended. -/
def wasmFilename (cratePath : String) : String :=
  replaceDash (basename cratePath) ++ "_bg.wasm"

/-- The internal marker prepended by `resolveId` (source line 31). -/
def marker : String := "@vite-plugin-wasm-pack@"

/-- `resolveId` from the source (lines 74–79): return `prefix + id` for the
first declared local crate path whose basename equals the requested id
verbatim, else `null`. -/
def resolveId (cratePaths : List String) (id : String) : Option String :=
  match cratePaths.find? (fun p => basename p == id) with
  | some _ => some (marker ++ id)
  | none => none

section BasenameSpec

private theorem takeWhile_append_cons (p : Char → Bool) (xs : List Char) (y : Char)
    (ys : List Char) (h : p y = false) :
    (xs ++ y :: ys).takeWhile p = xs.takeWhile p := by
  induction xs with
  | nil => simp [List.takeWhile_cons, h]
  | cons x xs ih =>
    cases hx : p x with
    | true =>
      rw [List.cons_append, List.takeWhile_cons_of_pos hx, List.takeWhile_cons_of_pos hx, ih]
    | false =>
      rw [List.cons_append, List.takeWhile_cons_of_neg (by simp [hx]),
        List.takeWhile_cons_of_neg (by simp [hx])]

private theorem dropWhile_append_of_ne_nil (p : Char → Bool) (xs ys : List Char)
    (h : xs.dropWhile p ≠ []) :
    (xs ++ ys).dropWhile p = xs.dropWhile p ++ ys := by
  induction xs with
  | nil => simp [List.dropWhile] at h
  | cons x xs ih =>
    cases hx : p x with
    | true =>
      rw [List.dropWhile_cons_of_pos hx] at h
      rw [List.cons_append, List.dropWhile_cons_of_pos hx, List.dropWhile_cons_of_pos hx]
      exact ih h
    | false =>
      rw [List.cons_append, List.dropWhile_cons_of_neg (by simp [hx]),
        List.dropWhile_cons_of_neg (by simp [hx]), List.cons_append]

private theorem dropWhile_append_of_eq_nil (p : Char → Bool) (xs ys : List Char)
    (h : xs.dropWhile p = []) :
    (xs ++ ys).dropWhile p = ys.dropWhile p := by
  induction xs with
  | nil => simp
  | cons x xs ih =>
    cases hx : p x with
    | true =>
      rw [List.dropWhile_cons_of_pos hx] at h
      rw [List.cons_append, List.dropWhile_cons_of_pos hx]
      exact ih h
    | false =>
      rw [List.dropWhile_cons_of_neg (by simp [hx])] at h
      exact absurd h (by simp)

private theorem dropWhile_all_false (p : Char → Bool) (xs : List Char)
    (h : ∀ c ∈ xs, p c = false) : xs.dropWhile p = xs := by
  cases xs with
  | nil => rfl
  | cons x xs => exact List.dropWhile_cons_of_neg (by simp [h x (by simp)])

private theorem takeWhile_all_true (p : Char → Bool) (xs : List Char)
    (h : ∀ c ∈ xs, p c = true) : xs.takeWhile p = xs := by
  induction xs with
  | nil => rfl
  | cons x xs ih =>
    rw [List.takeWhile_cons_of_pos (h x (by simp)), ih (fun c hc => h c (by simp [hc]))]

private theorem head_dropWhile_false (p : Char → Bool) (xs : List Char) :
    ∀ c cs, xs.dropWhile p = c :: cs → p c = false := by
  induction xs with
  | nil => intro c cs h; simp [List.dropWhile] at h
  | cons x xs ih =>
    intro c cs h
    cases hx : p x with
    | true =>
      rw [List.dropWhile_cons_of_pos hx] at h
      exact ih c cs h
    | false =>
      rw [List.dropWhile_cons_of_neg (by simp [hx])] at h
      cases h
      exact hx

/-- A list with no `/` is its own basename. -/
private theorem basenameL_noSlash (cur : List Char)
    (h : ∀ c ∈ cur, (c == '/') = false) : basenameL cur = cur := by
  unfold basenameL
  rw [dropWhile_all_false _ _ (fun c hc => h c (List.mem_reverse.mp hc)),
      takeWhile_all_true _ _ (fun c hc => by simp [h c (List.mem_reverse.mp hc)]),
      List.reverse_reverse]

private theorem basenameL_append_slash (cur cs : List Char)
    (h : ∀ c ∈ cur, (c == '/') = false) :
    basenameL (cur ++ '/' :: cs) =
      if basenameL cs = [] then cur else basenameL cs := by
  have hrev : (cur ++ '/' :: cs).reverse = cs.reverse ++ '/' :: cur.reverse := by
    simp
  by_cases hd : cs.reverse.dropWhile (fun c => c == '/') = []
  · have hbn : basenameL cs = [] := by
      unfold basenameL; rw [hd]; rfl
    rw [if_pos hbn]
    unfold basenameL
    rw [hrev, dropWhile_append_of_eq_nil _ _ _ hd,
      List.dropWhile_cons_of_pos (by simp),
      dropWhile_all_false _ _ (fun c hc => h c (List.mem_reverse.mp hc)),
      takeWhile_all_true _ _ (fun c hc => by simp [h c (List.mem_reverse.mp hc)]),
      List.reverse_reverse]
  · have hbn : basenameL cs ≠ [] := by
      obtain ⟨d, ds, hds⟩ : ∃ d ds, cs.reverse.dropWhile (fun c => c == '/') = d :: ds := by
        cases hx : cs.reverse.dropWhile (fun c => c == '/') with
        | nil => exact absurd hx hd
        | cons d ds => exact ⟨d, ds, rfl⟩
      unfold basenameL
      rw [hds, List.takeWhile_cons_of_pos (by simp [head_dropWhile_false _ _ _ _ hds])]
      simp
    rw [if_neg hbn]
    unfold basenameL
    rw [hrev, dropWhile_append_of_ne_nil _ _ _ hd,
      takeWhile_append_cons _ _ '/' _ (by simp)]

private theorem foldl_lastSegStep_spec (cs : List Char) :
    ∀ last cur, (∀ c ∈ cur, (c == '/') = false) →
      finishSeg (cs.foldl lastSegStep (last, cur)) =
        if basenameL (cur ++ cs) = [] then last else basenameL (cur ++ cs) := by
  induction cs with
  | nil =>
    intro last cur h
    simp only [List.foldl_nil, List.append_nil]
    rw [basenameL_noSlash cur h]
    rfl
  | cons c cs ih =>
    intro last cur h
    rw [List.foldl_cons]
    by_cases hc : c = '/'
    · subst hc
      rw [show lastSegStep (last, cur) '/' = (if cur = [] then last else cur, []) from by
        simp [lastSegStep]]
      rw [ih _ [] (by simp), basenameL_append_slash cur cs h]
      simp only [List.nil_append]
      by_cases hb : basenameL cs = []
      · by_cases hcur : cur = [] <;> simp [hb, hcur]
      · simp [hb]
    · rw [show lastSegStep (last, cur) c = (last, cur ++ [c]) from by simp [lastSegStep, hc]]
      have hnc : ∀ d ∈ cur ++ [c], (d == '/') = false := by
        intro d hd
        rcases List.mem_append.mp hd with h1 | h2
        · exact h d h1
        · simp only [List.mem_singleton] at h2
          subst h2
          simp [hc]
      rw [ih last (cur ++ [c]) hnc, List.append_assoc, List.singleton_append]

private theorem basenameL_eq_specLastSegL (cs : List Char) :
    basenameL cs = specLastSegL cs := by
  unfold specLastSegL
  rw [foldl_lastSegStep_spec cs [] [] (by simp)]
  simp only [List.nil_append]
  by_cases hb : basenameL cs = [] <;> simp [finishSeg, hb]

end BasenameSpec

/-- C1: the derived binary filename is deterministic and total (a plain Lean
function), equals the last path segment of the source identifier with every
hyphen replaced by an underscore followed by the fixed suffix `_bg.wasm`,
and in particular derives `my_crate_bg.wasm` from `../my-crate`. -/
theorem wasmFilename_spec (s : String) :
    wasmFilename s = replaceDash (lastPathSegment s) ++ "_bg.wasm" ∧
    wasmFilename "../my-crate" = "my_crate_bg.wasm" := by
  constructor
  · unfold wasmFilename basename lastPathSegment
    rw [basenameL_eq_specLastSegL]
  · decide

/-! ### Node `path.posix.join` / `normalize` -/

/-- Split a character list on `/`; adjacent separators yield empty segments,
as in Node's `normalizeString` scan. -/
def segmentsL : List Char → List (List Char)
  | [] => [[]]
  | c :: rest =>
    if c = '/' then [] :: segmentsL rest
    else
      match segmentsL rest with
      | s :: ss => (c :: s) :: ss
      | [] => [[c]]

/-- The segment-stack processor of Node's `normalizeString`: empty and `.`
segments are dropped, `..` pops the stack unless the stack is empty or ends
in `..`, in which case `..` is kept only when `allowAboveRoot`. -/
def normSegs (allowAboveRoot : Bool) : List (List Char) → List (List Char) → List (List Char)
  | stack, [] => stack
  | stack, seg :: rest =>
    if seg = [] ∨ seg = ['.'] then normSegs allowAboveRoot stack rest
    else if seg = ['.', '.'] then
      if stack ≠ [] ∧ stack.getLast? ≠ some ['.', '.'] then
        normSegs allowAboveRoot stack.dropLast rest
      else if allowAboveRoot then normSegs allowAboveRoot (stack ++ [seg]) rest
      else normSegs allowAboveRoot stack rest
    else normSegs allowAboveRoot (stack ++ [seg]) rest

/-- Join segments back with `/`. -/
def intercalateSlash : List (List Char) → List Char
  | [] => []
  | [s] => s
  | s :: rest => s ++ '/' :: intercalateSlash rest

/-- Node `path.posix.normalize` on characters. -/
def normalizeL (cs : List Char) : List Char :=
  match cs with
  | [] => ['.']
  | c0 :: _ =>
    let isAbs := c0 = '/'
    let trailingSep := cs.getLast? = some '/'
    let p := intercalateSlash (normSegs (!isAbs) [] (segmentsL cs))
    if p = [] then
      if isAbs then ['/'] else if trailingSep then ['.', '/'] else ['.']
    else
      let p2 := if trailingSep then p ++ ['/'] else p
      if isAbs then '/' :: p2 else p2

/-- Node `path.posix.join` on character lists: concatenate the nonempty
parts with `/`, then normalize; with no nonempty part the result is `.`. -/
def posixJoinL (parts : List (List Char)) : List Char :=
  match parts.foldl
      (fun acc p =>
        if p = [] then acc
        else
          match acc with
          | none => some p
          | some a => some (a ++ '/' :: p))
      none with
  | none => ['.']
  | some j => normalizeL j

/-- Node `path.posix.join` on strings; also models `path.join` on a posix
host. -/
def posixJoin (parts : List String) : String :=
  String.mk (posixJoinL (parts.map String.data))

/-! ### The loader-script rewrite of `prepareBuild` (source lines 140–148)

The JavaScript code is
`code.replace(/input = new URL\('(.+)'.+;/g, (m, g1) => ...)`,
replacing every match by
`input = "${path.posix.join(config_base, config_assetsDir, g1)}"`.
The regex engine is modelled faithfully: `.` matches everything except
line terminators, `+` is greedy with backtracking, matches are found
leftmost-first, and the global scan resumes after each match's end. -/

/-- What `.` matches in a JavaScript regex: any char except a line
terminator (LF, CR, LS, PS). -/
def dotChar (c : Char) : Bool :=
  !(c == Char.ofNat 10) && !(c == Char.ofNat 13) &&
    !(c == Char.ofNat 8232) && !(c == Char.ofNat 8233)

/-- The literal head of the pattern: `input = new URL(` followed by a
single quote. -/
def literalURL : List Char := "input = new URL(".data ++ [sqChar]

/-- Greedy match of the trailing `.+;` of the pattern: try the longest
dot-run first; on success return the number of characters consumed
(the run plus the semicolon). -/
def tailMatch (cs : List Char) : Nat → Option Nat
  | 0 => none
  | k + 1 =>
    if (cs.take (k + 1)).all dotChar &&
        (match cs.drop (k + 1) with
         | c :: _ => c == ';'
         | [] => false) then
      some (k + 2)
    else tailMatch cs k

/-- Greedy match of `(.+)'.+;` against `cs`: try the longest capture
first; on success return the capture and the number of characters
consumed. -/
def groupMatch (cs : List Char) : Nat → Option (List Char × Nat)
  | 0 => none
  | k + 1 =>
    if (cs.take (k + 1)).all dotChar &&
        (match cs.drop (k + 1) with
         | c :: _ => c == sqChar
         | [] => false) then
      match tailMatch (cs.drop (k + 2)) (cs.drop (k + 2)).length with
      | some t => some (cs.take (k + 1), (k + 2) + t)
      | none => groupMatch cs k
    else groupMatch cs k

/-- Try the whole pattern at the current position: the literal head, then
the greedy group and tail. Returns capture and total match length. -/
def matchAt (cs : List Char) : Option (List Char × Nat) :=
  if literalURL.isPrefixOf cs then
    (groupMatch (cs.drop literalURL.length) (cs.drop literalURL.length).length).map
      (fun gn => (gn.1, literalURL.length + gn.2))
  else none

/-- The replacement produced for a capture `g1`:
`input = "<posix.join(base, assetsDir, g1)>"`. -/
def replacementFor (base assetsDir g1 : List Char) : List Char :=
  "input = ".data ++ dqChar :: (posixJoinL [base, assetsDir, g1] ++ [dqChar])

/-- Global regex replace: scan left to right, replace each match, resume
after its end. `fuel` bounds the scan; any `fuel ≥ cs.length` is exact. -/
def replaceAllAux (base assetsDir : List Char) : Nat → List Char → List Char
  | 0, cs => cs
  | fuel + 1, cs =>
    match matchAt cs, cs with
    | some gn, _ => replacementFor base assetsDir gn.1 ++
        replaceAllAux base assetsDir fuel (cs.drop gn.2)
    | none, [] => []
    | none, c :: rest => c :: replaceAllAux base assetsDir fuel rest

/-- Does the detection pattern match anywhere in the text? -/
def hasMatch : List Char → Bool
  | [] => false
  | c :: rest => (matchAt (c :: rest)).isSome || hasMatch rest

/-- The loader-script transform of `prepareBuild` (source lines 140–148):
`code.replace(regex, ...)` with the captured base path and assets
directory. -/
def transform (base assetsDir code : String) : String :=
  String.mk (replaceAllAux base.data assetsDir.data code.data.length code.data)

/-- The URL-construction line emitted by wasm-bindgen loader scripts, with
original relative reference `my_crate_bg.wasm`:
`input = new URL('my_crate_bg.wasm', import.meta.url);`. -/
def urlLine : String :=
  "input = new URL(" ++ sqStr ++ "my_crate_bg.wasm" ++ sqStr ++ ", import.meta.url);"

/-- An adversarial loader text whose capture group itself contains the
pattern's literal head:
`input = new URL('input = new URL('q'z;'w;`. -/
def advLoader : String :=
  "input = new URL(" ++ sqStr ++ "input = new URL(" ++ sqStr ++ "q" ++ sqStr ++ "z;" ++
    sqStr ++ "w;"

/-! ### The resolution map `wasmMap` (source lines 45–64) -/

/-- `CrateType` from the source (line 45). -/
structure CrateType where
  path : String
  isNodeModule : Bool
deriving DecidableEq, Repr

/-- JavaScript `Map.prototype.set`: update the existing entry for the key in
place, else append a new entry. -/
def mapSet : List (String × CrateType) → String → CrateType → List (String × CrateType)
  | [], k, v => [(k, v)]
  | e :: rest, k, v => if e.1 = k then (k, v) :: rest else e :: mapSet rest k v

/-- JavaScript `Map.prototype.get`. -/
def mapGet (m : List (String × CrateType)) (k : String) : Option CrateType :=
  (m.find? (fun e => e.1 == k)).map (fun e => e.2)

/-- The declared sources in processing order: all local crate paths, then
all npm module crates, as the two `forEach` loops at lines 49–64 run. The
`Bool` is `isNodeModule`. -/
def sourcesOf (cratePaths modulePaths : List String) : List (String × Bool) :=
  cratePaths.map (fun c => (c, false)) ++ modulePaths.map (fun c => (c, true))

/-- The map entry recorded for one source (lines 51–54 and 60–63):
`path.join(cratePath, pkg, wasmFile)` for locals,
`path.join(dirname(require.resolve(cratePath)), wasmFile)` for npm crates.
`resolveDir` abstracts `path.dirname(require.resolve(...))`, which depends
on the host module resolution. -/
def entryOf (resolveDir : String → String) (s : String × Bool) : CrateType :=
  if s.2 then ⟨posixJoin [resolveDir s.1, wasmFilename s.1], true⟩
  else ⟨posixJoin [s.1, "pkg", wasmFilename s.1], false⟩

/-- The startup construction of `wasmMap` (lines 49–64): for each source in
order, `wasmMap.set(wasmFilename(...), entry)`. -/
def buildWasmMap (cratePaths modulePaths : List String)
    (resolveDir : String → String) : List (String × CrateType) :=
  (sourcesOf cratePaths modulePaths).foldl
    (fun m s => mapSet m (wasmFilename s.1) (entryOf resolveDir s)) []

/-! ### The dev-server middleware (source lines 161–181) -/

/-- Everything the middleware can do with a request: nothing at all, pass it
on to the next handler (with the response headers set so far), or answer it
with a status, headers and body. -/
inductive MwAction where
  | nothing : MwAction
  | next (headers : List (String × String)) : MwAction
  | respond (status : Nat) (headers : List (String × String)) (body : List Nat) : MwAction
deriving DecidableEq, Repr

/-- JavaScript `String.prototype.endsWith`, as a suffix test on the
character lists. -/
def strEndsWith (s suffixStr : String) : Bool :=
  suffixStr.data.isSuffixOf s.data

/-- The `Cache-Control` header set by `res.setHeader` (lines 167–170). -/
def cacheHeader : String × String :=
  ("Cache-Control", "no-cache, no-store, must-revalidate")

/-- The `Content-Type` header passed to `res.writeHead` (line 173). -/
def contentTypeHeader : String × String := ("Content-Type", "application/wasm")

/-- The middleware installed by `configureServer` (lines 164–179), acting on
one request. `url` is `none` when `req.url` is not a string; `fsBytes`
gives the bytes of the file a path names (the `createReadStream` pipe). -/
def handleRequest (wasmMap : List (String × CrateType)) (fsBytes : String → List Nat)
    (url : Option String) : MwAction :=
  match url with
  | none => MwAction.nothing
  | some u =>
    let bn := basename u
    let hdrs := [cacheHeader]
    match mapGet wasmMap bn, strEndsWith bn ".wasm" with
    | some entry, true =>
      MwAction.respond 200 (hdrs ++ [contentTypeHeader]) (fsBytes entry.path)
    | some _, false => MwAction.next hdrs
    | none, _ => MwAction.next hdrs

/-! ### Production asset emission, `buildEnd` (source lines 183–192) -/

/-- One `this.emitFile({ type: 'asset', fileName, source })` record. -/
structure EmittedAsset where
  fileName : String
  source : List Nat
deriving DecidableEq, Repr

/-- `buildEnd` (lines 183–192): for every map entry, emit an asset named
`assets/<fileName>` whose source is `fs.readFileSync(crate.path)`. -/
def buildEnd (m : List (String × CrateType)) (fsBytes : String → List Nat) :
    List EmittedAsset :=
  m.map (fun e => ⟨"assets/" ++ e.1, fsBytes e.2.path⟩)

/-! ### `buildStart` and its filesystem effects (source lines 96–159)

The filesystem is modelled as a set of existing directories plus flat files
(directory, name, text). All paths are kept in `path.join`-normalized form,
as Node's `path.join` returns them. `fs.copy` copies a directory's direct
children and fails exactly when the source directory does not exist
(`ENOENT`); `fs.readFileSync` fails (throws) when the file is absent. -/

structure FileEntry where
  dir : String
  name : String
  content : String
deriving DecidableEq, Repr

structure FS where
  dirs : List String
  files : List FileEntry
deriving DecidableEq, Repr

/-- `fs.readFileSync` (text). -/
def readFile (fs : FS) (p : String) : Option String :=
  (fs.files.find? (fun f => posixJoin [f.dir, f.name] == p)).map (fun f => f.content)

/-- `fs.writeFileSync` to a path that exists (the only use in the plugin
rewrites a file just read). -/
def writeFile (fs : FS) (p content : String) : FS :=
  { fs with
    files := fs.files.map
      (fun f => if posixJoin [f.dir, f.name] == p then { f with content := content } else f) }

/-- `fs.copy(src, dst)`: fails when `src` does not exist, else creates `dst`
with copies of `src`'s files. -/
def copyDir (fs : FS) (src dst : String) : Option FS :=
  if fs.dirs.contains src then
    some
      { dirs := fs.dirs ++ [dst],
        files := fs.files ++
          fs.files.filterMap (fun f => if f.dir == src then some { f with dir := dst } else none) }
  else none

/-- A console error printed by `prepareBuild` when a source's package
directory is missing (lines 102–118): the path it could not find and the
remediation command it names. -/
inductive ConsoleMsg where
  | missingPkg (pkgPath : String) (remediation : String) : ConsoleMsg
deriving DecidableEq, Repr

/-- The remediation command named in the error message: `npm install ...`
for npm crates (line 107), `wasm-pack build ... --target web` for local
crates (line 114). -/
def remediationCmd (cratePath : String) (isNodeModule : Bool) : String :=
  if isNodeModule then "npm install " ++ cratePath
  else "wasm-pack build " ++ cratePath ++ " --target web"

/-- `prepareBuild` (lines 97–150) for one source: check the package
directory, printing a remediation error when missing; for local sources
copy it to `node_modules` (`this.error('copy crates failed')` aborting on
failure); then read the loader script, rewrite it with the URL transform,
and write it back (an unreadable script throws, aborting). Returns the
printed errors and either the new filesystem or the fatal error text. -/
def prepareBuild (base assetsDir : String) (resolveDir : String → String)
    (cratePath : String) (isNodeModule : Bool) (fs : FS) :
    List ConsoleMsg × Except String FS :=
  let pkgPath := if isNodeModule then resolveDir cratePath else posixJoin [cratePath, "pkg"]
  let crateName := basename cratePath
  let errs :=
    if fs.dirs.contains pkgPath then []
    else [ConsoleMsg.missingPkg pkgPath (remediationCmd cratePath isNodeModule)]
  let afterCopy : Except String FS :=
    if isNodeModule then Except.ok fs
    else
      match copyDir fs pkgPath (posixJoin ["node_modules", crateName]) with
      | some fs2 => Except.ok fs2
      | none => Except.error "copy crates failed"
  match afterCopy with
  | Except.error e => (errs, Except.error e)
  | Except.ok fs2 =>
    let jsName := replaceDash crateName ++ ".js"
    let jsPath :=
      if isNodeModule then posixJoin [pkgPath, jsName]
      else posixJoin ["./node_modules", crateName, jsName]
    match readFile fs2 jsPath with
    | none => (errs, Except.error ("ENOENT: " ++ jsPath))
    | some code => (errs, Except.ok (writeFile fs2 jsPath (transform base assetsDir code)))

/-- The observable outcome of `buildStart`: console errors printed, sources
fully processed, and either the final filesystem or the fatal error that
aborted the build. -/
structure BuildResult where
  printed : List ConsoleMsg
  processed : List String
  result : Except String FS
deriving Repr

/-- Sequential processing of the declared sources; the first fatal error
aborts the loop, leaving later sources unprocessed. -/
def buildStartAux (base assetsDir : String) (resolveDir : String → String) :
    List (String × Bool) → FS → BuildResult
  | [], fs => ⟨[], [], Except.ok fs⟩
  | (c, isNM) :: rest, fs =>
    match prepareBuild base assetsDir resolveDir c isNM fs with
    | (errs, Except.error e) => ⟨errs, [], Except.error e⟩
    | (errs, Except.ok fs2) =>
      let r := buildStartAux base assetsDir resolveDir rest fs2
      ⟨errs ++ r.printed, c :: r.processed, r.result⟩

/-- `buildStart` (lines 96–159): all local crates in order, then all npm
crates. -/
def buildStart (base assetsDir : String) (resolveDir : String → String)
    (cratePaths modulePaths : List String) (fs : FS) : BuildResult :=
  buildStartAux base assetsDir resolveDir (sourcesOf cratePaths modulePaths) fs

/-! ### Claims about the dev-server middleware -/

/-- C10: when `req.url` is not a string the middleware takes no action at
all — it writes no response, sets no headers, and never calls the next
handler. -/
theorem middleware_ignores_non_string_url (m : List (String × CrateType))
    (fsBytes : String → List Nat) :
    handleRequest m fsBytes none = MwAction.nothing := rfl

/-- C4: a request whose URL basename is a key of the resolution map and
ends in `.wasm` is answered with status 200, the `Content-Type:
application/wasm` and `Cache-Control: no-cache, no-store, must-revalidate`
headers, and a body that is exactly the bytes of the file at the mapping's
recorded path. -/
theorem middleware_serves_known_wasm (m : List (String × CrateType))
    (fsBytes : String → List Nat) (u : String) (entry : CrateType)
    (hget : mapGet m (basename u) = some entry)
    (hext : strEndsWith (basename u) ".wasm" = true) :
    handleRequest m fsBytes (some u) =
      MwAction.respond 200 [cacheHeader, contentTypeHeader] (fsBytes entry.path) := by
  simp only [handleRequest, hget, hext]
  rfl

theorem middleware_serves_known_wasm_witness :
    handleRequest [("my_crate_bg.wasm", ⟨"my-crate/pkg/my_crate_bg.wasm", false⟩)]
      (fun _ => [0, 97, 115, 109]) (some "/whatever/my_crate_bg.wasm") =
      MwAction.respond 200 [cacheHeader, contentTypeHeader] [0, 97, 115, 109] :=
  middleware_serves_known_wasm _ _ _ ⟨"my-crate/pkg/my_crate_bg.wasm", false⟩
    (by decide) (by decide)

/-- C5 counterexample: a non-matching request is passed to the next handler,
but not "with no headers added" — the middleware has already set the
`Cache-Control` header unconditionally (source lines 167–170) before
deciding, so the claim is false at this input. -/
theorem middleware_pass_counterexample :
    handleRequest [] (fun _ => []) (some "/whatever/unknown.wasm") =
      MwAction.next [cacheHeader] ∧
    handleRequest [] (fun _ => []) (some "/whatever/unknown.wasm") ≠
      MwAction.next [] := by
  exact ⟨rfl, by decide⟩

/-- C5 (amended): a request whose URL basename is not a `.wasm`-suffixed key
of the map is passed to the next handler without a response being written,
but with the `Cache-Control` header already set on the response. -/
theorem middleware_pass_amended (m : List (String × CrateType))
    (fsBytes : String → List Nat) (u : String)
    (h : ¬((mapGet m (basename u)).isSome ∧ strEndsWith (basename u) ".wasm" = true)) :
    handleRequest m fsBytes (some u) = MwAction.next [cacheHeader] := by
  cases hg : mapGet m (basename u) with
  | none => simp only [handleRequest, hg]
  | some e =>
    cases he : strEndsWith (basename u) ".wasm" with
    | true => exact absurd ⟨by simp [hg], he⟩ h
    | false => simp only [handleRequest, hg, he]

theorem middleware_pass_witness :
    handleRequest [] (fun _ => []) (some "/whatever/unknown.txt") =
      MwAction.next [cacheHeader] :=
  middleware_pass_amended [] _ "/whatever/unknown.txt" (by decide)

/-! ### Claims about `resolveId` -/

/-- C7 counterexample: the claim says interception happens iff the id's
base name equals the base name of a declared local source directory. For
declared `./my-crate` and requested id `x/my-crate` the two base names
agree, yet the code compares the declared base name against the id
verbatim (line 76) and returns `null`. -/
theorem resolveId_counterexample :
    ¬(resolveId ["./my-crate"] "x/my-crate" = some (marker ++ "x/my-crate") ↔
      ∃ p ∈ ["./my-crate"], basename p = basename "x/my-crate") := by
  decide

/-- C7 (amended): the id is rewritten to the marker identifier iff the id
itself (verbatim, not its base name) equals the base name of one of the
declared local source directories; every other id — including declared
installed-package identifiers that do not collide with such a base name —
resolves to `null`. -/
theorem resolveId_spec_amended (cratePaths : List String) (id : String) :
    (resolveId cratePaths id = some (marker ++ id) ↔ ∃ p ∈ cratePaths, basename p = id) ∧
    (resolveId cratePaths id = none ↔ ¬∃ p ∈ cratePaths, basename p = id) := by
  unfold resolveId
  cases hf : cratePaths.find? (fun p => basename p == id) with
  | none =>
    have hno : ¬∃ p ∈ cratePaths, basename p = id := by
      rintro ⟨p, hp, hb⟩
      have := List.find?_eq_none.mp hf p hp
      simp [hb] at this
    simp [hno]
  | some p0 =>
    have hyes : ∃ p ∈ cratePaths, basename p = id := by
      have hmem := List.mem_of_find?_eq_some hf
      have hpred := List.find?_some hf
      exact ⟨p0, hmem, by simpa using hpred⟩
    simp [hyes]

/-! ### Claims about `buildStart` error handling -/

/-- A loader script for the healthy crate of the C8 scenario. -/
def loaderB : String :=
  "input = new URL(" ++ sqStr ++ "crate_b_bg.wasm" ++ sqStr ++ ", import.meta.url);"

/-- A filesystem in which `./crate-a` has never been built (`crate-a/pkg`
is absent) while `./crate-b` has a complete build output. -/
def fsMissingA : FS := ⟨["crate-b/pkg"], [⟨"crate-b/pkg", "crate_b.js", loaderB⟩]⟩

/-- C8 counterexample: with `./crate-a` missing its build output and
`./crate-b` fully built, the remediation error is indeed printed for
`./crate-a`, but processing does not continue: the unconditional copy step
(source lines 119–126) fails on the missing directory and
`this.error('copy crates failed')` aborts the whole build, so `./crate-b`
is never resolved or transformed — the claimed non-fatality is false. -/
theorem buildStart_missing_counterexample :
    fsMissingA.dirs.contains (posixJoin ["./crate-a", "pkg"]) = false ∧
    (buildStart "/app/" "assets" (fun _ => "node_modules/x")
        ["./crate-a", "./crate-b"] [] fsMissingA).printed =
      [ConsoleMsg.missingPkg "crate-a/pkg" (remediationCmd "./crate-a" false)] ∧
    (buildStart "/app/" "assets" (fun _ => "node_modules/x")
        ["./crate-a", "./crate-b"] [] fsMissingA).processed = [] ∧
    (buildStart "/app/" "assets" (fun _ => "node_modules/x")
        ["./crate-a", "./crate-b"] [] fsMissingA).result =
      Except.error "copy crates failed" := by
  refine ⟨by decide, by decide, by decide, ?_⟩
  rfl

/-- C8 (amended): when the build-output directory of a declared local
source is absent at its turn, the descriptive remediation error naming
`wasm-pack build <crate> --target web` is reported for that source, and the
build is then aborted by that same source's failing copy step with
`copy crates failed`; the sources after it are not processed. -/
theorem buildStart_missing_amended (base assetsDir : String)
    (resolveDir : String → String) (c : String) (rest : List (String × Bool)) (fs : FS)
    (h : fs.dirs.contains (posixJoin [c, "pkg"]) = false) :
    buildStartAux base assetsDir resolveDir ((c, false) :: rest) fs =
      ⟨[ConsoleMsg.missingPkg (posixJoin [c, "pkg"]) (remediationCmd c false)], [],
        Except.error "copy crates failed"⟩ := by
  have h' : posixJoin [c, "pkg"] ∉ fs.dirs := by simpa using h
  have hcopy : copyDir fs (posixJoin [c, "pkg"]) (posixJoin ["node_modules", basename c]) =
      none := by
    simp [copyDir, h']
  have hprep : prepareBuild base assetsDir resolveDir c false fs =
      ([ConsoleMsg.missingPkg (posixJoin [c, "pkg"]) (remediationCmd c false)],
        Except.error "copy crates failed") := by
    unfold prepareBuild
    simp [h', hcopy]
  simp only [buildStartAux, hprep]

theorem buildStart_missing_witness :
    buildStartAux "/app/" "assets" (fun _ => "node_modules/x")
        [("./crate-a", false)] ⟨[], []⟩ =
      ⟨[ConsoleMsg.missingPkg (posixJoin ["./crate-a", "pkg"])
          (remediationCmd "./crate-a" false)], [],
        Except.error "copy crates failed"⟩ :=
  buildStart_missing_amended "/app/" "assets" (fun _ => "node_modules/x") "./crate-a" []
    ⟨[], []⟩ (by decide)

/-! ### Claims about production asset emission -/

private theorem posixJoinL_assets (bd fd : List Char) (hf : fd ≠ []) :
    posixJoinL [bd, "assets".data, fd] = posixJoinL [bd, "assets".data ++ '/' :: fd] := by
  unfold posixJoinL
  by_cases hb : bd = []
  · subst hb
    simp [List.foldl, hf, show "assets".data ≠ ([] : List Char) by decide]
  · simp [List.foldl, hb, hf, show "assets".data ≠ ([] : List Char) by decide,
      List.append_assoc]

/-- Joining a base with `assets` and a nonempty filename equals joining the
base with the single relative path `assets/<filename>`. -/
theorem join_assets_agree (b f : String) (hf : f ≠ "") :
    posixJoin [b, "assets", f] = posixJoin [b, "assets/" ++ f] := by
  have hfd : f.data ≠ [] := fun h => hf (by rw [show f = String.mk f.data from rfl, h])
  unfold posixJoin
  simp only [List.map]
  rw [show ("assets/" ++ f).data = "assets".data ++ '/' :: f.data from by
    rw [String.data_append]
    rw [show "assets/".data = "assets".data ++ ['/'] from by decide]
    simp]
  exact congrArg String.mk (posixJoinL_assets b.data f.data hfd)

/-- C3 counterexample: with resolved base `/` and assets directory
`static`, the transformer writes `/static/my_crate_bg.wasm` into the loader
script, while `buildEnd` emits the asset under the hard-coded name
`assets/my_crate_bg.wasm` (source line 188), which serves at
`/assets/my_crate_bg.wasm` — the two disagree, so the claimed agreement
"for every resolved base path and assets directory" is false. -/
theorem buildEnd_agreement_counterexample :
    transform "/" "static" urlLine =
      "input = " ++ dqStr ++ "/static/my_crate_bg.wasm" ++ dqStr ∧
    buildEnd [("my_crate_bg.wasm", ⟨"my-crate/pkg/my_crate_bg.wasm", false⟩)]
      (fun _ => [0, 97, 115, 109]) = [⟨"assets/my_crate_bg.wasm", [0, 97, 115, 109]⟩] ∧
    posixJoin ["/", "assets/my_crate_bg.wasm"] ≠ "/static/my_crate_bg.wasm" :=
  ⟨by decide, by decide, by decide⟩

/-- C3 (amended): at finalize time exactly one asset is emitted per mapping
entry, named `assets/<binaryFileName>` with content the bytes at the
mapping's recorded path; the emitted name agrees with the loader reference
written by the transformer whenever the resolved assets directory is the
default `assets` (for any base path and nonempty filename) — not for every
assets directory. -/
theorem buildEnd_spec_amended (m : List (String × CrateType)) (fsBytes : String → List Nat)
    (i : Nat) (b f : String) :
    (buildEnd m fsBytes).length = m.length ∧
    (buildEnd m fsBytes).get? i =
      (m.get? i).map (fun e => ⟨"assets/" ++ e.1, fsBytes e.2.path⟩) ∧
    (f ≠ "" → posixJoin [b, "assets", f] = posixJoin [b, "assets/" ++ f]) :=
  ⟨by simp [buildEnd], by simp [buildEnd], fun hf => join_assets_agree b f hf⟩

theorem buildEnd_spec_witness :
    (buildEnd [("my_crate_bg.wasm", ⟨"my-crate/pkg/my_crate_bg.wasm", false⟩)]
      (fun _ => [0, 97, 115, 109])).length = 1 ∧
    (buildEnd [("my_crate_bg.wasm", ⟨"my-crate/pkg/my_crate_bg.wasm", false⟩)]
      (fun _ => [0, 97, 115, 109])).get? 0 =
      some ⟨"assets/my_crate_bg.wasm", [0, 97, 115, 109]⟩ ∧
    posixJoin ["/app/", "assets", "my_crate_bg.wasm"] =
      posixJoin ["/app/", "assets/" ++ "my_crate_bg.wasm"] :=
  ⟨(buildEnd_spec_amended [("my_crate_bg.wasm", ⟨"my-crate/pkg/my_crate_bg.wasm", false⟩)]
      (fun _ => [0, 97, 115, 109]) 0 "/app/" "my_crate_bg.wasm").1,
    (buildEnd_spec_amended [("my_crate_bg.wasm", ⟨"my-crate/pkg/my_crate_bg.wasm", false⟩)]
      (fun _ => [0, 97, 115, 109]) 0 "/app/" "my_crate_bg.wasm").2.1,
    (buildEnd_spec_amended [("my_crate_bg.wasm", ⟨"my-crate/pkg/my_crate_bg.wasm", false⟩)]
      (fun _ => [0, 97, 115, 109]) 0 "/app/" "my_crate_bg.wasm").2.2 (by decide)⟩

/-! ### Claims about the resolution map -/

private theorem mapGet_cons (x : String × CrateType) (xs : List (String × CrateType))
    (f : String) :
    mapGet (x :: xs) f = if x.1 = f then some x.2 else mapGet xs f := by
  by_cases h : x.1 = f <;> simp [mapGet, List.find?_cons, h]

private theorem mapGet_mapSet (m : List (String × CrateType)) (k : String) (v : CrateType)
    (f : String) :
    mapGet (mapSet m k v) f = if f = k then some v else mapGet m f := by
  induction m with
  | nil =>
    by_cases hf : f = k
    · simp [mapSet, mapGet_cons, hf]
    · simp [mapSet, mapGet_cons, mapGet, hf, Ne.symm hf]
  | cons e m ih =>
    by_cases he : e.1 = k
    · rw [show mapSet (e :: m) k v = (k, v) :: m from by simp [mapSet, he]]
      rw [mapGet_cons, mapGet_cons]
      by_cases hf : f = k
      · simp [hf]
      · simp [hf, Ne.symm hf, he]
    · rw [show mapSet (e :: m) k v = e :: mapSet m k v from by simp [mapSet, he]]
      rw [mapGet_cons, mapGet_cons, ih]
      by_cases hf : e.1 = f
      · have hfk : ¬f = k := fun hh => he (hf.trans hh)
        simp [hf, hfk]
      · simp [hf]

private theorem keys_mapSet (m : List (String × CrateType)) (k : String) (v : CrateType) :
    (mapSet m k v).map Prod.fst = m.map Prod.fst ∨
    ((mapSet m k v).map Prod.fst = m.map Prod.fst ++ [k] ∧ k ∉ m.map Prod.fst) := by
  induction m with
  | nil => right; simp [mapSet]
  | cons e m ih =>
    by_cases he : e.1 = k
    · left
      rw [show mapSet (e :: m) k v = (k, v) :: m from by simp [mapSet, he]]
      simp [he]
    · rw [show mapSet (e :: m) k v = e :: mapSet m k v from by simp [mapSet, he]]
      rcases ih with h | ⟨h, hnk⟩
      · left; simp [h]
      · right
        refine ⟨by simp [h], ?_⟩
        simp only [List.map_cons, List.mem_cons]
        rintro (h1 | h1)
        · exact he (Eq.symm h1)
        · exact hnk h1

private theorem nodup_keys_mapSet (m : List (String × CrateType)) (k : String) (v : CrateType)
    (h : (m.map Prod.fst).Nodup) : ((mapSet m k v).map Prod.fst).Nodup := by
  rcases keys_mapSet m k v with hk | ⟨hk, hnk⟩
  · rw [hk]; exact h
  · rw [hk]
    simp [List.nodup_append, h, hnk]

private theorem mapGet_foldl_sources (rd : String → String) (srcs : List (String × Bool)) :
    ∀ m f, mapGet (srcs.foldl (fun m s => mapSet m (wasmFilename s.1) (entryOf rd s)) m) f =
      match (srcs.filter (fun s => wasmFilename s.1 == f)).getLast? with
      | some s => some (entryOf rd s)
      | none => mapGet m f := by
  induction srcs with
  | nil => intro m f; rfl
  | cons s srcs ih =>
    intro m f
    rw [List.foldl_cons, ih]
    by_cases hs : wasmFilename s.1 = f
    · rw [show (s :: srcs).filter (fun t => wasmFilename t.1 == f) =
          s :: srcs.filter (fun t => wasmFilename t.1 == f) from by
        simp [List.filter_cons, hs]]
      cases hrest : srcs.filter (fun t => wasmFilename t.1 == f) with
      | nil => simp [hrest, mapGet_mapSet, hs]
      | cons a l =>
        have hx : (a :: l).getLast? = some ((a :: l).getLast (by simp)) :=
          List.getLast?_eq_getLast _ (by simp)
        simp [hrest, hx]
    · rw [show (s :: srcs).filter (fun t => wasmFilename t.1 == f) =
          srcs.filter (fun t => wasmFilename t.1 == f) from by
        simp [List.filter_cons, hs]]
      cases hrest : srcs.filter (fun t => wasmFilename t.1 == f) with
      | nil => simp [hrest, mapGet_mapSet, Ne.symm hs]
      | cons a l =>
        have hx : (a :: l).getLast? = some ((a :: l).getLast (by simp)) :=
          List.getLast?_eq_getLast _ (by simp)
        simp [hrest, hx]

private theorem nodup_keys_foldl (rd : String → String) (srcs : List (String × Bool)) :
    ∀ m, (m.map Prod.fst).Nodup →
      ((srcs.foldl (fun m s => mapSet m (wasmFilename s.1) (entryOf rd s)) m).map
        Prod.fst).Nodup := by
  induction srcs with
  | nil => intro m h; exact h
  | cons s srcs ih =>
    intro m h
    rw [List.foldl_cons]
    exact ih _ (nodup_keys_mapSet m _ _ h)

/-- C9: the startup map holds at most one entry per derived filename (its
keys are pairwise distinct), and looking a filename up yields exactly the
entry of the last declared source (locals first, then npm crates) whose
derived filename is that key — later colliding sources silently overwrite
earlier ones. The concrete collision `./my-crate` / `./my_crate` retains
only the entry of `./my_crate`, the last one processed. -/
theorem wasmMap_last_wins (cratePaths modulePaths : List String)
    (resolveDir : String → String) (f : String) :
    ((buildWasmMap cratePaths modulePaths resolveDir).map Prod.fst).Nodup ∧
    mapGet (buildWasmMap cratePaths modulePaths resolveDir) f =
      ((sourcesOf cratePaths modulePaths).filter
        (fun s => wasmFilename s.1 == f)).getLast?.map (entryOf resolveDir) ∧
    buildWasmMap ["./my-crate", "./my_crate"] [] (fun _ => "") =
      [("my_crate_bg.wasm", ⟨"my_crate/pkg/my_crate_bg.wasm", false⟩)] := by
  refine ⟨nodup_keys_foldl resolveDir _ [] (by simp), ?_, by decide⟩
  rw [buildWasmMap, mapGet_foldl_sources]
  cases h : (sourcesOf cratePaths modulePaths).filter (fun s => wasmFilename s.1 == f) with
  | nil => rfl
  | cons a l =>
    have hx : (a :: l).getLast? = some ((a :: l).getLast (by simp)) :=
      List.getLast?_eq_getLast _ (by simp)
    simp [hx]

theorem resolveId_spec_witness :
    resolveId ["./my-crate"] "my-crate" = some (marker ++ "my-crate") ∧
    resolveId ["./my-crate"] "test-npm-crate" = none :=
  ⟨(resolveId_spec_amended ["./my-crate"] "my-crate").1.mpr
      ⟨"./my-crate", by decide, by decide⟩,
    (resolveId_spec_amended ["./my-crate"] "test-npm-crate").2.mpr (by decide)⟩

/-! ### Claims about the loader-script rewrite -/

private theorem replaceAllAux_no_match (b a : List Char) :
    ∀ fuel cs, hasMatch cs = false → replaceAllAux b a fuel cs = cs := by
  intro fuel
  induction fuel with
  | zero => intro cs _; rfl
  | succ fuel ih =>
    intro cs h
    cases cs with
    | nil => rfl
    | cons c rest =>
      have hm : matchAt (c :: rest) = none := by
        cases hx : matchAt (c :: rest) with
        | none => rfl
        | some gn => simp [hasMatch, hx] at h
      have hr : hasMatch rest = false := by
        simp only [hasMatch, Bool.or_eq_false_iff] at h
        exact h.2
      simp only [replaceAllAux, hm]
      rw [ih rest hr]

private theorem replaceAllAux_step (b a : List Char) (fuel : Nat) (cs g1 : List Char)
    (n : Nat) (hm : matchAt cs = some (g1, n)) :
    replaceAllAux b a (fuel + 1) cs =
      replacementFor b a g1 ++ replaceAllAux b a fuel (cs.drop n) := by
  simp only [replaceAllAux, hm]

/-- C2: on the loader line `input = new URL('my_crate_bg.wasm', ...);` the
transformer, for every captured base path and assets directory, produces
the direct string assignment whose value is the posix join of the base
path, the assets directory and the original relative filename; with base
`/app/` and assets directory `assets` that value is
`/app/assets/my_crate_bg.wasm`. -/
theorem transform_rewrites_url (base assetsDir : String) :
    transform base assetsDir urlLine =
      "input = " ++ dqStr ++ posixJoin [base, assetsDir, "my_crate_bg.wasm"] ++ dqStr ∧
    posixJoin ["/app/", "assets", "my_crate_bg.wasm"] = "/app/assets/my_crate_bg.wasm" := by
  constructor
  · have hm : matchAt urlLine.data = some ("my_crate_bg.wasm".data, 53) := by decide
    have hlen : urlLine.data.length = 53 := by decide
    have hdrop : urlLine.data.drop 53 = [] := by decide
    unfold transform
    rw [hlen]
    generalize hg : urlLine.data = cs at hm hdrop
    show String.mk (replaceAllAux base.data assetsDir.data (52 + 1) cs) = _
    rw [replaceAllAux_step _ _ _ _ _ _ hm, hdrop,
      replaceAllAux_no_match base.data assetsDir.data 52 [] rfl, List.append_nil]
    apply String.ext
    simp only [String.data_append]
    simp [replacementFor, posixJoin, dqStr, String.singleton]
  · decide

/-- C6 counterexample: the rewrite is not idempotent for every loader-script
text. On `advLoader` the greedy capture swallows a nested copy of the
pattern head, the replacement therefore still matches the detection
pattern, and a second pass rewrites the text again. -/
theorem transform_not_idempotent :
    transform "/app/" "assets" (transform "/app/" "assets" advLoader) ≠
      transform "/app/" "assets" advLoader := by
  decide

/-- C6 (amended): for every loader-script text whose once-rewritten form no
longer matches the detection pattern — true of ordinary generated loader
scripts, but not of every text — applying the rewrite twice yields the same
text as applying it once. -/
theorem transform_idempotent_amended (base assetsDir t : String)
    (h : hasMatch (transform base assetsDir t).data = false) :
    transform base assetsDir (transform base assetsDir t) = transform base assetsDir t := by
  unfold transform at h ⊢
  rw [replaceAllAux_no_match _ _ _ _ h]

theorem transform_idempotent_witness :
    transform "/app/" "assets" (transform "/app/" "assets" urlLine) =
      transform "/app/" "assets" urlLine :=
  transform_idempotent_amended "/app/" "assets" urlLine (by decide)
